import Mathlib

/-!
Verification of the personal finance ledger (src/ledger.py).

The ledger state is a list of transaction records plus a counter for the
next identifier.  Amounts are Python floats in the source; the embedding
models them as exact rationals, and Python's two-argument round (banker's
rounding, round-half-to-even) as a function on rationals.  Dates are the
strings produced by strftime and are passed in as arguments, since the
clock is an external effect.  Console output is dropped; the boolean and
status results carry the reported outcome.
-/

/-- One transaction record, mirroring the fields of the TypedDict
Transaction in src/ledger.py.  The type field is a string because nothing
in the code enforces the income/expense literal on imported data. -/
structure Transaction where
  id : ℤ
  date : String
  type : String
  category : String
  amount : ℚ
  description : String
deriving DecidableEq, Repr

/-- Round-half-to-even of a rational to an integer, the semantics of
Python's builtin round on an exact value. -/
def roundHalfEven (x : ℚ) : ℤ :=
  if x - ⌊x⌋ < 1 / 2 then ⌊x⌋
  else if 1 / 2 < x - ⌊x⌋ then ⌊x⌋ + 1
  else if ⌊x⌋ % 2 = 0 then ⌊x⌋ else ⌊x⌋ + 1

/-- Python round(q, 2): round to two fractional digits, ties to even. -/
def pyRound2 (q : ℚ) : ℚ := (roundHalfEven (q * 100) : ℚ) / 100

/-- The mutable state of PersonalFinanceLedger: the transactions list and
the private next-id counter. -/
structure Ledger where
  transactions : List Transaction
  next_id : ℤ
deriving DecidableEq, Repr

/-- Python max((t["id"] for t in ts), default=0): the maximum of the ids,
or 0 when the list is empty. -/
def idMax (ts : List Transaction) : ℤ :=
  match ts with
  | [] => 0
  | t :: rest => rest.foldl (fun m u => max m u.id) t.id

/-- PersonalFinanceLedger.__init__: the transactions loaded from the data
file (empty when the file is missing or corrupt), with the next id
recomputed as max existing id + 1, or 1 when empty. -/
def ledger_init (loaded : List Transaction) : Ledger :=
  { transactions := loaded, next_id := idMax loaded + 1 }

/-- A fresh ledger: missing or corrupt data file, so no transactions. -/
def initialLedger : Ledger := ledger_init []

/-- PersonalFinanceLedger.add_transaction: append a record with the
current next id, the current time string, and the amount rounded to two
decimals, then increment the counter.  The save to disk is a mirror of
this state and carries no extra information. -/
def add_transaction (l : Ledger) (tx_type category : String) (amount : ℚ)
    (descr now : String) : Ledger :=
  { transactions := l.transactions ++
      [{ id := l.next_id, date := now, type := tx_type, category := category,
         amount := pyRound2 amount, description := descr }],
    next_id := l.next_id + 1 }

/-- PersonalFinanceLedger.delete_transaction: replace the list by the
records whose id differs from the argument (this happens before the
length check, as in the source), then report whether the list shrank. -/
def delete_transaction (l : Ledger) (tx_id : ℤ) : Ledger × Bool :=
  let remaining := l.transactions.filter (fun t => t.id != tx_id)
  if remaining.length < l.transactions.length then
    ({ l with transactions := remaining }, true)
  else
    ({ l with transactions := remaining }, false)

/-- Loop body of calculate_balance: add income amounts, subtract expense
amounts, ignore any other type. -/
def balanceStep (balance : ℚ) (tx : Transaction) : ℚ :=
  if tx.type = "income" then balance + tx.amount
  else if tx.type = "expense" then balance - tx.amount
  else balance

/-- PersonalFinanceLedger.calculate_balance: fold the loop body over the
transactions starting from 0.0, then round to two decimals. -/
def calculate_balance (l : Ledger) : ℚ :=
  pyRound2 (l.transactions.foldl balanceStep 0)

/-- Loop body of generate_summary: accumulate the income total and the
expense total, ignoring any other type. -/
def summaryStep (s : ℚ × ℚ) (tx : Transaction) : ℚ × ℚ :=
  if tx.type = "income" then (s.1 + tx.amount, s.2)
  else if tx.type = "expense" then (s.1, s.2 + tx.amount)
  else s

/-- PersonalFinanceLedger.generate_summary: the pair (income total,
expense total), each independently rounded to two decimals. -/
def generate_summary (l : Ledger) : ℚ × ℚ :=
  let s := l.transactions.foldl summaryStep (0, 0)
  (pyRound2 s.1, pyRound2 s.2)

/-- What a read of an import source can find, the four cases the code
distinguishes: no file (FileNotFoundError), content that does not parse
as JSON (JSONDecodeError), JSON whose top level is not a list of dicts
(the explicit ValueError), or a list of transaction records.  Records
that parse as dicts but lack transaction fields would be stored by the
Python code and crash on the first field access; they are outside this
typed embedding and outside every claim. -/
inductive FileData where
  | missing
  | malformed
  | notListOfDicts
  | records (ts : List Transaction)
deriving DecidableEq, Repr

/-- The outcome a call to import_data reports on the console. -/
inductive ImportOutcome where
  | ok
  | fileNotFound
  | jsonDecodeFailed
  | badShape
deriving DecidableEq, Repr

/-- PersonalFinanceLedger.export_data: serialize the full current
transaction list to the target file.  In the rational model the JSON
encoding is faithful, so the written content is the list itself. -/
def export_data (l : Ledger) : FileData := FileData.records l.transactions

/-- PersonalFinanceLedger.import_data: on a valid list of records replace
the transactions, recompute the next id exactly as in __init__, and save;
on any of the three failure cases leave the state alone and report the
specific cause. -/
def import_data (l : Ledger) (src : FileData) : Ledger × ImportOutcome :=
  match src with
  | FileData.missing => (l, ImportOutcome.fileNotFound)
  | FileData.malformed => (l, ImportOutcome.jsonDecodeFailed)
  | FileData.notListOfDicts => (l, ImportOutcome.badShape)
  | FileData.records ts =>
      ({ transactions := ts, next_id := idMax ts + 1 }, ImportOutcome.ok)

/-- handle_add, the caller boundary of add_transaction: a non-positive
amount cancels the operation before the ledger is touched. -/
def handle_add (l : Ledger) (tx_type category : String) (amount : ℚ)
    (descr now : String) : Ledger :=
  if amount ≤ 0 then l
  else add_transaction l tx_type category amount descr now

/-- The category branch of handle_view: the query is lowercased and
compared against the lowercased stored category. -/
def view_by_category (l : Ledger) (cat_input : String) : List Transaction :=
  l.transactions.filter (fun t => t.category.toLower == cat_input.toLower)

/-- Constructing a new PersonalFinanceLedger over the persisted file.
Every mutating operation rewrites the file with the in-memory list, so
the reloaded transactions equal the current list; the next id is
recomputed from them as in __init__. -/
def reload (l : Ledger) : Ledger := ledger_init l.transactions

/-- A ledger-store operation of the kind the claims quantify over. -/
inductive Op where
  | add (tx_type category : String) (amount : ℚ) (descr now : String)
  | delete (tx_id : ℤ)
deriving DecidableEq, Repr

/-- Apply one operation to the ledger state. -/
def applyOp (l : Ledger) : Op → Ledger
  | Op.add ty c a d n => add_transaction l ty c a d n
  | Op.delete i => (delete_transaction l i).1

/-- Run a sequence of operations left to right. -/
def runOps (l : Ledger) (ops : List Op) : Ledger := ops.foldl applyOp l

/-- The ids handed out by the add operations of a run, in call order:
each add assigns the next id of the state it runs in. -/
def assignedIds : Ledger → List Op → List ℤ
  | _, [] => []
  | l, op :: ops =>
    match op with
    | Op.add _ _ _ _ _ => l.next_id :: assignedIds (applyOp l op) ops
    | Op.delete _ => assignedIds (applyOp l op) ops

/-- Every add of the run finds its new id absent from the transactions
present at the moment it executes. -/
def FreshAssigned : Ledger → List Op → Prop
  | _, [] => True
  | l, op :: ops =>
    (match op with
     | Op.add _ _ _ _ _ => ∀ t ∈ l.transactions, t.id ≠ l.next_id
     | Op.delete _ => True) ∧ FreshAssigned (applyOp l op) ops

/-- The arguments of one interactive add call. -/
structure AddCall where
  tx_type : String
  category : String
  amount : ℚ
  descr : String
  now : String
deriving DecidableEq, Repr

/-- The ledger-store operation of an add call. -/
def AddCall.toOp (a : AddCall) : Op :=
  Op.add a.tx_type a.category a.amount a.descr a.now

/-! ### Supporting lemmas -/

/-- Amounts expressible in whole cents: every value the ledger's own adds
store, and every value the rounding produces. -/
def isCenti (q : ℚ) : Prop := ∃ n : ℤ, q = (n : ℚ) / 100

theorem roundHalfEven_intCast (n : ℤ) : roundHalfEven (n : ℚ) = n := by
  unfold roundHalfEven
  rw [Int.floor_intCast, sub_self]
  rw [if_pos (by norm_num)]

theorem pyRound2_centi {q : ℚ} (h : isCenti q) : pyRound2 q = q := by
  obtain ⟨n, rfl⟩ := h
  unfold pyRound2
  rw [div_mul_cancel₀ _ (by norm_num : (100 : ℚ) ≠ 0), roundHalfEven_intCast]

theorem isCenti_pyRound2 (q : ℚ) : isCenti (pyRound2 q) :=
  ⟨roundHalfEven (q * 100), rfl⟩

theorem isCenti_zero : isCenti 0 := ⟨0, by norm_num⟩

theorem isCenti.add {q r : ℚ} (hq : isCenti q) (hr : isCenti r) :
    isCenti (q + r) := by
  obtain ⟨m, rfl⟩ := hq
  obtain ⟨n, rfl⟩ := hr
  exact ⟨m + n, by push_cast; ring⟩

theorem isCenti.sub {q r : ℚ} (hq : isCenti q) (hr : isCenti r) :
    isCenti (q - r) := by
  obtain ⟨m, rfl⟩ := hq
  obtain ⟨n, rfl⟩ := hr
  exact ⟨m - n, by push_cast; ring⟩

/-- The balance loop computes the difference of the two summary totals:
the folds stay in the relation c = income − expense at every step. -/
theorem balance_foldl_eq_summary (ts : List Transaction) :
    ∀ (p : ℚ × ℚ) (c : ℚ), c = p.1 - p.2 →
      ts.foldl balanceStep c =
        (ts.foldl summaryStep p).1 - (ts.foldl summaryStep p).2 := by
  induction ts with
  | nil => intro p c h; simpa using h
  | cons t ts ih =>
    intro p c h
    simp only [List.foldl_cons]
    apply ih
    unfold balanceStep summaryStep
    by_cases h1 : t.type = "income"
    · simp only [if_pos h1]; rw [h]; ring
    · by_cases h2 : t.type = "expense"
      · simp only [if_neg h1, if_pos h2]; rw [h]; ring
      · simp only [if_neg h1, if_neg h2]; exact h

/-- When every amount is a whole number of cents, both running summary
totals stay whole numbers of cents. -/
theorem summary_foldl_centi (ts : List Transaction)
    (hts : ∀ t ∈ ts, isCenti t.amount) :
    ∀ p : ℚ × ℚ, isCenti p.1 → isCenti p.2 →
      isCenti (ts.foldl summaryStep p).1 ∧ isCenti (ts.foldl summaryStep p).2 := by
  induction ts with
  | nil => intro p h1 h2; exact ⟨h1, h2⟩
  | cons t ts ih =>
    intro p h1 h2
    have ht : isCenti t.amount := hts t (List.mem_cons_self t ts)
    have hts' : ∀ u ∈ ts, isCenti u.amount :=
      fun u hu => hts u (List.mem_cons_of_mem t hu)
    simp only [List.foldl_cons]
    unfold summaryStep
    by_cases hty1 : t.type = "income"
    · simp only [if_pos hty1]
      exact ih hts' _ (h1.add ht) h2
    · by_cases hty2 : t.type = "expense"
      · simp only [if_neg hty1, if_pos hty2]
        exact ih hts' _ h1 (h2.add ht)
      · simp only [if_neg hty1, if_neg hty2]
        exact ih hts' _ h1 h2

/-- Both branches of delete leave the filtered list in the state. -/
theorem delete_transaction_fst (l : Ledger) (i : ℤ) :
    (delete_transaction l i).1 =
      { l with transactions := l.transactions.filter (fun t => t.id != i) } := by
  simp only [delete_transaction]
  split <;> rfl

/-- Delete never touches the id counter. -/
theorem delete_transaction_next_id (l : Ledger) (i : ℤ) :
    (delete_transaction l i).1.next_id = l.next_id := by
  rw [delete_transaction_fst]

/-- A filter strictly shortens a list exactly when some member fails the
predicate. -/
theorem length_filter_lt_length_iff {α : Type} (p : α → Bool) (l : List α) :
    (l.filter p).length < l.length ↔ ∃ x ∈ l, ¬ p x = true := by
  induction l with
  | nil => simp
  | cons a l ih =>
    by_cases h : p a = true
    · simp [List.filter_cons, h, Nat.succ_lt_succ_iff, ih]
    · simp only [List.filter_cons, if_neg h, List.length_cons]
      constructor
      · intro _; exact ⟨a, List.mem_cons_self a l, h⟩
      · intro _
        exact Nat.lt_succ_of_le (List.length_filter_le p l)

/-- The ledger invariant the program maintains: every stored id is below
the next id to hand out. -/
def IdsBelowNext (l : Ledger) : Prop := ∀ t ∈ l.transactions, t.id < l.next_id

/-- Seeding a fold of max with a smaller start cannot lower the result. -/
theorem foldl_max_start_le (ts : List Transaction) :
    ∀ b : ℤ, b ≤ ts.foldl (fun m u => max m u.id) b := by
  induction ts with
  | nil => intro b; exact le_refl b
  | cons t ts ih =>
    intro b
    exact le_trans (le_max_left b t.id) (ih (max b t.id))

/-- Every member's id is bounded by the max fold. -/
theorem mem_le_foldl_max (ts : List Transaction) :
    ∀ (b : ℤ) (t : Transaction), t ∈ ts →
      t.id ≤ ts.foldl (fun m u => max m u.id) b := by
  induction ts with
  | nil => intro b t ht; cases ht
  | cons u ts ih =>
    intro b t ht
    rcases List.mem_cons.mp ht with h | h
    · subst h
      exact le_trans (le_max_right b t.id) (foldl_max_start_le ts (max b t.id))
    · exact ih (max b u.id) t h

/-- Every id in the list is at most the recomputed maximum. -/
theorem id_le_idMax (ts : List Transaction) (t : Transaction) (ht : t ∈ ts) :
    t.id ≤ idMax ts := by
  cases ts with
  | nil => cases ht
  | cons u rest =>
    unfold idMax
    rcases List.mem_cons.mp ht with h | h
    · subst h; exact foldl_max_start_le rest t.id
    · exact mem_le_foldl_max rest u.id t h

/-- Construction establishes the invariant: next id exceeds every id. -/
theorem ledger_init_inv (ts : List Transaction) : IdsBelowNext (ledger_init ts) := by
  intro t ht
  exact lt_of_le_of_lt (id_le_idMax ts t ht) (lt_add_one (idMax ts))

/-- Every operation preserves the invariant. -/
theorem applyOp_inv {l : Ledger} (h : IdsBelowNext l) (op : Op) :
    IdsBelowNext (applyOp l op) := by
  cases op with
  | add ty c a d n =>
    intro t ht
    simp only [applyOp, add_transaction, List.mem_append, List.mem_singleton] at ht
    rcases ht with ht | ht
    · exact lt_trans (h t ht) (lt_add_one l.next_id)
    · subst ht; exact lt_add_one l.next_id
  | delete i =>
    intro t ht
    simp only [applyOp] at ht ⊢
    rw [delete_transaction_fst] at ht
    rw [delete_transaction_next_id]
    exact h t (List.mem_of_mem_filter ht)

/-- No operation ever lowers the id counter. -/
theorem next_id_mono (l : Ledger) (op : Op) :
    l.next_id ≤ (applyOp l op).next_id := by
  cases op with
  | add ty c a d n => exact le_of_lt (lt_add_one l.next_id)
  | delete i => rw [applyOp, delete_transaction_next_id]

/-- Every id a run hands out is at least the starting next id. -/
theorem mem_assignedIds_ge (ops : List Op) :
    ∀ (l : Ledger) (i : ℤ), i ∈ assignedIds l ops → l.next_id ≤ i := by
  induction ops with
  | nil => intro l i hi; cases hi
  | cons op ops ih =>
    intro l i hi
    cases op with
    | add ty c a d n =>
      rcases List.mem_cons.mp hi with h | h
      · subst h; exact le_refl _
      · exact le_trans (next_id_mono l (Op.add ty c a d n)) (ih _ i h)
    | delete j =>
      exact le_trans (next_id_mono l (Op.delete j)) (ih _ i hi)

/-- The ids handed out by any run are strictly increasing in call order. -/
theorem chain_assignedIds (ops : List Op) :
    ∀ l : Ledger, List.Chain' (fun a b => a < b) (assignedIds l ops) := by
  induction ops with
  | nil => intro l; exact List.chain'_nil
  | cons op ops ih =>
    intro l
    cases op with
    | add ty c a d n =>
      simp only [assignedIds]
      rw [List.chain'_cons']
      refine ⟨fun y hy => ?_, ih _⟩
      have hmem : y ∈ assignedIds (applyOp l (Op.add ty c a d n)) ops :=
        List.mem_of_mem_head? hy
      have := mem_assignedIds_ge ops _ y hmem
      have hnext : (applyOp l (Op.add ty c a d n)).next_id = l.next_id + 1 := rfl
      omega
    | delete j =>
      exact ih _

/-- Under the invariant, every add of a run hands out an id absent from
the transactions present when it executes. -/
theorem freshAssigned_of_inv (ops : List Op) :
    ∀ l : Ledger, IdsBelowNext l → FreshAssigned l ops := by
  induction ops with
  | nil => intro l _; trivial
  | cons op ops ih =>
    intro l h
    refine ⟨?_, ih _ (applyOp_inv h op)⟩
    cases op with
    | add ty c a d n =>
      exact fun t ht => ne_of_lt (h t ht)
    | delete j => trivial

/-- Adds store rounded amounts and deletes only drop records, so a run of
adds and deletes keeps every stored amount a whole number of cents. -/
theorem runOps_amounts_centi (ops : List Op) :
    ∀ l : Ledger, (∀ t ∈ l.transactions, isCenti t.amount) →
      ∀ t ∈ (runOps l ops).transactions, isCenti t.amount := by
  induction ops with
  | nil => intro l h; exact h
  | cons op ops ih =>
    intro l h
    have hstep : ∀ t ∈ (applyOp l op).transactions, isCenti t.amount := by
      cases op with
      | add ty c a d n =>
        intro t ht
        simp only [applyOp, add_transaction, List.mem_append,
          List.mem_singleton] at ht
        rcases ht with ht | ht
        · exact h t ht
        · subst ht; exact isCenti_pyRound2 a
      | delete i =>
        intro t ht
        simp only [applyOp] at ht
        rw [delete_transaction_fst] at ht
        exact h t (List.mem_of_mem_filter ht)
    exact ih (applyOp l op) hstep

/-! ### Claim theorems -/

/-- Claim C1: for every ledger state reachable from a fresh ledger by any
sequence of add and delete operations, calculate_balance returns exactly
the income total minus the expense total of generate_summary, each side
carrying its own rounding to two decimals. -/
theorem balance_eq_summary_income_sub_expense (ops : List Op) :
    calculate_balance (runOps initialLedger ops) =
      (generate_summary (runOps initialLedger ops)).1 -
        (generate_summary (runOps initialLedger ops)).2 := by
  have hc : ∀ t ∈ (runOps initialLedger ops).transactions, isCenti t.amount := by
    apply runOps_amounts_centi
    intro t ht
    cases ht
  have hS := summary_foldl_centi ((runOps initialLedger ops).transactions) hc
    (0, 0) isCenti_zero isCenti_zero
  have hb := balance_foldl_eq_summary ((runOps initialLedger ops).transactions)
    (0, 0) 0 (by norm_num)
  unfold calculate_balance generate_summary
  dsimp only
  rw [hb, pyRound2_centi (hS.1.sub hS.2), pyRound2_centi hS.1, pyRound2_centi hS.2]

/-- Claim C2: starting from any ledger state satisfying the invariant the
program maintains (every stored id is below the next id — established at
construction and preserved by every operation), a sequence of adds hands
out ids strictly increasing in call order, each absent from the
transactions present at the moment of its call. -/
theorem add_ids_fresh_and_increasing (l : Ledger) (h : IdsBelowNext l)
    (calls : List AddCall) :
    List.Chain' (fun a b => a < b) (assignedIds l (calls.map AddCall.toOp)) ∧
      FreshAssigned l (calls.map AddCall.toOp) :=
  ⟨chain_assignedIds (calls.map AddCall.toOp) l,
   freshAssigned_of_inv (calls.map AddCall.toOp) l h⟩

/-- Witness for C2 at a concrete state and two concrete add calls. -/
theorem add_ids_fresh_and_increasing_witness :
    IdsBelowNext (Ledger.mk [] 1) ∧
      (List.Chain' (fun a b => a < b)
        (assignedIds (Ledger.mk [] 1)
          ([AddCall.mk "income" "Salary" 1000 "March pay" "t1",
            AddCall.mk "expense" "Groceries" 45 "Weekly shop" "t2"].map
              AddCall.toOp)) ∧
      FreshAssigned (Ledger.mk [] 1)
        ([AddCall.mk "income" "Salary" 1000 "March pay" "t1",
          AddCall.mk "expense" "Groceries" 45 "Weekly shop" "t2"].map
            AddCall.toOp)) :=
  ⟨fun t ht => absurd ht (List.not_mem_nil t),
   add_ids_fresh_and_increasing (Ledger.mk [] 1)
     (fun t ht => absurd ht (List.not_mem_nil t)) _⟩

/-- Claim C4: deleting an id absent from the transaction list returns the
ledger unchanged (transactions and next id alike) together with False,
the not-found report. -/
theorem delete_absent_id_noop (l : Ledger) (tx_id : ℤ)
    (h : ∀ t ∈ l.transactions, t.id ≠ tx_id) :
    delete_transaction l tx_id = (l, false) := by
  have hfilter : l.transactions.filter (fun t => t.id != tx_id) = l.transactions :=
    List.filter_eq_self.mpr fun t ht => by
      simpa using h t ht
  simp only [delete_transaction, hfilter]
  rw [if_neg (lt_irrefl l.transactions.length)]

/-- Witness for C4: deleting id 2 from a one-transaction ledger that only
holds id 1. -/
theorem delete_absent_id_noop_witness :
    delete_transaction
        (Ledger.mk [Transaction.mk 1 "t1" "income" "Salary" 1000 "March pay"] 2)
        2 =
      (Ledger.mk [Transaction.mk 1 "t1" "income" "Salary" 1000 "March pay"] 2,
        false) :=
  delete_absent_id_noop _ 2 (by
    intro t ht
    simp only [List.mem_singleton] at ht
    subst ht
    decide)

/-- Claim C9: one delete call drops every record carrying the given id,
not only the first match, keeping the others in order, and returns True
exactly when at least one record was dropped. -/
theorem delete_removes_all_matches (l : Ledger) (tx_id : ℤ) :
    (∀ t ∈ (delete_transaction l tx_id).1.transactions, t.id ≠ tx_id) ∧
      (delete_transaction l tx_id).1.transactions =
        l.transactions.filter (fun t => t.id != tx_id) ∧
      ((delete_transaction l tx_id).2 = true ↔
        ∃ t ∈ l.transactions, t.id = tx_id) := by
  refine ⟨?_, ?_, ?_⟩
  · intro t ht
    rw [delete_transaction_fst] at ht
    have := List.of_mem_filter ht
    simpa using this
  · rw [delete_transaction_fst]
  · simp only [delete_transaction]
    split
    · simp only [true_iff]
      rcases (length_filter_lt_length_iff _ _).mp (by assumption) with ⟨t, ht, hp⟩
      exact ⟨t, ht, by simpa using hp⟩
    · simp only [Bool.false_eq_true, false_iff]
      intro ⟨t, ht, hid⟩
      have hlt : (l.transactions.filter (fun t => t.id != tx_id)).length <
          l.transactions.length :=
        (length_filter_lt_length_iff _ _).mpr ⟨t, ht, by simp [hid]⟩
      exact absurd hlt (by assumption)

/-- Claim C5: exporting and immediately importing the produced file
restores the very same in-memory transaction list, ids, fields and order
included, and the import reports success. -/
theorem export_import_roundtrip (l : Ledger) :
    (import_data l (export_data l)).1.transactions = l.transactions ∧
      (import_data l (export_data l)).2 = ImportOutcome.ok :=
  ⟨rfl, rfl⟩

/-- Claim C6: each of the three validation failures of import — missing
file, content that does not parse, parsed content whose top level is not
a list of dicts — leaves the whole ledger state (transactions and next
id) untouched and reports its specific cause. -/
theorem import_failure_keeps_state (l : Ledger) :
    import_data l FileData.missing = (l, ImportOutcome.fileNotFound) ∧
      import_data l FileData.malformed = (l, ImportOutcome.jsonDecodeFailed) ∧
      import_data l FileData.notListOfDicts = (l, ImportOutcome.badShape) :=
  ⟨rfl, rfl, rfl⟩

/-- Counterexample to claim C3 as stated: from a fresh ledger, add ids 1
and 2, delete id 2, reconstruct the ledger from the persisted file (which
recomputes the next id as max stored id + 1 = 2), and the next add hands
out the deleted id 2 again. -/
theorem deleted_id_reassigned_after_reload :
    (let l2 := add_transaction
        (add_transaction initialLedger "income" "Salary" 1000 "March pay" "t1")
        "expense" "Groceries" 45 "Weekly shop" "t2"
     let l3 := (delete_transaction l2 2).1
     let l5 := add_transaction (reload l3) "income" "Bonus" 5 "Late bonus" "t3"
     l2.transactions.map Transaction.id = [1, 2] ∧
       (delete_transaction l2 2).2 = true ∧
       l3.transactions.map Transaction.id = [1] ∧
       l5.transactions.map Transaction.id = [1, 2]) := by
  decide

/-- Claim C3 amended: within a single ledger instance (no reconstruction
from the persisted file), an id below the current next id — in particular
every id already assigned, deleted or not — is never handed out by any
later sequence of adds and deletes, because the counter never decreases;
only a reconstruction, which recomputes the counter from the surviving
ids, can make a deleted id available again. -/
theorem assigned_id_not_reused_in_session (l : Ledger) (ops : List Op)
    (i : ℤ) (h : i < l.next_id) : i ∉ assignedIds l ops :=
  fun hmem => absurd (mem_assignedIds_ge ops l i hmem) (not_le.mpr h)

/-- Witness for the amended C3: id 2 is below the counter 3 and is not
assigned by a later delete-then-add sequence. -/
theorem assigned_id_not_reused_in_session_witness :
    (2 : ℤ) < (Ledger.mk [] 3).next_id ∧
      (2 : ℤ) ∉ assignedIds (Ledger.mk [] 3)
        [Op.delete 2, Op.add "income" "Bonus" 5 "Late bonus" "t3"] :=
  ⟨by decide,
   assigned_id_not_reused_in_session (Ledger.mk [] 3)
     [Op.delete 2, Op.add "income" "Bonus" 5 "Late bonus" "t3"] 2 (by decide)⟩

/-- Claim C7: a positive amount is appended as a record carrying the
current next id, the given date, the amount rounded to two decimals, and
the counter moves up by one; a non-positive amount is rejected at the
handler boundary and the ledger is untouched. -/
theorem handle_add_appends_or_rejects (l : Ledger) (ty cat : String)
    (amt : ℚ) (d now : String) :
    (0 < amt →
      handle_add l ty cat amt d now =
        Ledger.mk
          (l.transactions ++ [Transaction.mk l.next_id now ty cat (pyRound2 amt) d])
          (l.next_id + 1)) ∧
    (amt ≤ 0 → handle_add l ty cat amt d now = l) := by
  constructor
  · intro h
    unfold handle_add
    rw [if_neg (not_le.mpr h)]
    rfl
  · intro h
    unfold handle_add
    rw [if_pos h]

/-- Witness for C7: the positive branch at amount 5 and the rejection
branch at amount 0. -/
theorem handle_add_appends_or_rejects_witness :
    handle_add (Ledger.mk [] 1) "income" "Salary" 5 "pay" "t1" =
        Ledger.mk [Transaction.mk 1 "t1" "income" "Salary" (pyRound2 5) "pay"] 2 ∧
      handle_add (Ledger.mk [] 1) "income" "Salary" 0 "pay" "t1" =
        Ledger.mk [] 1 :=
  ⟨(handle_add_appends_or_rejects (Ledger.mk [] 1) "income" "Salary" 5 "pay"
      "t1").1 (by norm_num),
   (handle_add_appends_or_rejects (Ledger.mk [] 1) "income" "Salary" 0 "pay"
      "t1").2 (by norm_num)⟩

/-- Claim C8: the category is stored exactly as given, and the view
filter selects precisely the transactions whose stored category matches
the query up to lowercasing both sides. -/
theorem category_stored_and_filter_case_blind (l : Ledger) (ty cat : String)
    (amt : ℚ) (d now q : String) (t : Transaction) :
    (add_transaction l ty cat amt d now).transactions.map Transaction.category =
        l.transactions.map Transaction.category ++ [cat] ∧
      (t ∈ view_by_category l q ↔
        t ∈ l.transactions ∧ t.category.toLower = q.toLower) := by
  constructor
  · simp [add_transaction]
  · simp [view_by_category, List.mem_filter]

/-- Claim C10: a transaction whose type is neither the exact string
income nor the exact string expense contributes to neither summary total
and leaves the balance unchanged, wherever it sits in the list. -/
theorem other_type_invisible (ts1 ts2 : List Transaction) (t : Transaction)
    (n : ℤ) (h1 : t.type ≠ "income") (h2 : t.type ≠ "expense") :
    calculate_balance (Ledger.mk (ts1 ++ t :: ts2) n) =
        calculate_balance (Ledger.mk (ts1 ++ ts2) n) ∧
      generate_summary (Ledger.mk (ts1 ++ t :: ts2) n) =
        generate_summary (Ledger.mk (ts1 ++ ts2) n) := by
  have hb : ∀ b : ℚ, balanceStep b t = b := fun b => by
    unfold balanceStep; rw [if_neg h1, if_neg h2]
  have hs : ∀ p : ℚ × ℚ, summaryStep p t = p := fun p => by
    unfold summaryStep; rw [if_neg h1, if_neg h2]
  constructor
  · unfold calculate_balance
    simp only [List.foldl_append, List.foldl_cons, hb]
  · unfold generate_summary
    simp only [List.foldl_append, List.foldl_cons, hs]

/-- Witness for C10: a transfer record sitting between an income and an
expense changes neither the balance nor the summary. -/
theorem other_type_invisible_witness :
    calculate_balance
        (Ledger.mk
          ([Transaction.mk 1 "t1" "income" "Salary" 1000 "p"] ++
            Transaction.mk 3 "t3" "transfer" "Misc" 7 "d" ::
              [Transaction.mk 2 "t2" "expense" "Groceries" 45 "w"]) 4) =
      calculate_balance
        (Ledger.mk
          ([Transaction.mk 1 "t1" "income" "Salary" 1000 "p"] ++
            [Transaction.mk 2 "t2" "expense" "Groceries" 45 "w"]) 4) ∧
      generate_summary
        (Ledger.mk
          ([Transaction.mk 1 "t1" "income" "Salary" 1000 "p"] ++
            Transaction.mk 3 "t3" "transfer" "Misc" 7 "d" ::
              [Transaction.mk 2 "t2" "expense" "Groceries" 45 "w"]) 4) =
      generate_summary
        (Ledger.mk
          ([Transaction.mk 1 "t1" "income" "Salary" 1000 "p"] ++
            [Transaction.mk 2 "t2" "expense" "Groceries" 45 "w"]) 4) :=
  other_type_invisible
    [Transaction.mk 1 "t1" "income" "Salary" 1000 "p"]
    [Transaction.mk 2 "t2" "expense" "Groceries" 45 "w"]
    (Transaction.mk 3 "t3" "transfer" "Misc" 7 "d") 4
    (by decide) (by decide)
